import Mathlib

/-!
Verification of the pii-shield detection-reconciliation and masking engine.

This file gives a shallow embedding, in Lean 4, of the core algorithms of the
pii-shield repository and proves (or refutes) the specification claims about
them:

* `src/core/shield.py` — `PIIShield._merge_entities` (reconciliation),
  `PIIShield._entities_overlap_simple`, and the `protect` / `detect_only`
  adapter-failure policy;
* `src/core/masker.py` — `PIIMasker.mask` and `_get_default_operators`;
* `src/eval/metrics.py` — `DetectionMetrics`, `EntityMetrics`,
  `calculate_span_overlap`, `match_predictions_to_ground_truth`.

Modelling conventions: Python integers become `Int` (character offsets),
Python floats become `ℚ` (exact rationals; the float computations in
`metrics.py` involve one division and one comparison, which we treat
exactly), Python lists become `List`, insertion-ordered dicts become
association lists, sets of indices become lists of indices, and exceptions
become `Except String`.  Python's `list.sort` is a stable sort, modelled by
`List.insertionSort` (also stable) with the total preorder induced by the
sort key.

The file is organised with all definitions first, then all theorems.
-/

/-- Model of `presidio_analyzer.RecognizerResult` as used by this code base:
an entity span with `entity_type`, half-open offsets `start`/`end`, and a
confidence `score` (`src/core/shield.py` constructs these fields in
`_convert_azure_to_presidio`; `PIIShield.to_dict` reads exactly these four
fields). -/
structure RecognizerResult where
  entity_type : String
  start : Int
  «end» : Int
  score : ℚ
deriving DecidableEq, Repr

namespace PIIShield

/-- Translation of `PIIShield._entities_overlap_simple` (src/core/shield.py:366-382):
`not (entity1.end <= entity2.start or entity1.start >= entity2.end)`. -/
def entitiesOverlapSimple (entity1 entity2 : RecognizerResult) : Bool :=
  !(decide (entity1.«end» ≤ entity2.start) || decide (entity1.start ≥ entity2.«end»))

/-- The sort key of `all_entities.sort(key=lambda x: (x.start, -(x.end - x.start)))`
(src/core/shield.py:329), as a total preorder: ascending `start`, then
descending length.  Python's `list.sort` is stable; `List.insertionSort`
with this preorder is the same stable sort. -/
def MergeKeyLE (a b : RecognizerResult) : Prop :=
  a.start < b.start ∨ (a.start = b.start ∧ b.«end» - b.start ≤ a.«end» - a.start)

instance : DecidableRel MergeKeyLE := fun a b => by
  unfold MergeKeyLE; infer_instance

instance : IsTotal RecognizerResult MergeKeyLE where
  total a b := by unfold MergeKeyLE; omega

instance : IsTrans RecognizerResult MergeKeyLE where
  trans a b c hab hbc := by unfold MergeKeyLE at *; omega

/-- The key of the final `merged.sort(key=lambda x: x.start)`
(src/core/shield.py:362). -/
def StartLE (a b : RecognizerResult) : Prop :=
  a.start ≤ b.start

instance : DecidableRel StartLE := fun a b => by
  unfold StartLE; infer_instance

instance : IsTotal RecognizerResult StartLE where
  total a b := by unfold StartLE; omega

instance : IsTrans RecognizerResult StartLE where
  trans a b c hab hbc := by unfold StartLE at *; omega

/-- One iteration of the outer loop of `PIIShield._merge_entities`
(src/core/shield.py:335-359) on the working list `merged`:
scan the accepted spans left to right; an accepted span that overlaps the
candidate and is strictly narrower is marked for removal (`entities_to_remove`)
and the scan continues; the first overlapping accepted span that is wider or
equal stops the scan (`should_add = False; break`), keeping itself and
everything after it — the spans already marked are still popped.  If no such
blocker exists the candidate is appended after the removals. -/
def insertEntity (entity : RecognizerResult) : List RecognizerResult → List RecognizerResult
  | [] => [entity]
  | existing :: rest =>
    if entitiesOverlapSimple entity existing then
      if entity.«end» - entity.start > existing.«end» - existing.start then
        insertEntity entity rest
      else
        existing :: rest
    else
      existing :: insertEntity entity rest

/-- Translation of `PIIShield._merge_entities` (src/core/shield.py:301-364): concatenate the
two adapters' entity lists, stable-sort by `(start, -length)`, run the greedy
overlap-resolution loop, and stable-sort the result by `start`.  (The
`if not all_entities: return []` early exit is the `[]` case of the fold.) -/
def mergeEntities (azure_entities presidio_entities : List RecognizerResult) :
    List RecognizerResult :=
  let all_entities := azure_entities ++ presidio_entities
  let sorted := all_entities.insertionSort MergeKeyLE
  let merged := sorted.foldl (fun m e => insertEntity e m) []
  merged.insertionSort StartLE

/-- Non-overlap of two spans, phrased as the boolean check of
`_entities_overlap_simple` returning `False`. -/
def NoOv (a b : RecognizerResult) : Prop :=
  entitiesOverlapSimple a b = false

end PIIShield

namespace PIIMasker

/-- The `replace` operator built by `PIIMasker._get_default_operators` for the
`REPLACE` strategy (src/core/masker.py:135-139):
`OperatorConfig("replace", {"new_value": f"<{entity_type}>"})` — the span's
substring is replaced by `"<" + entity_type + ">"` regardless of its content. -/
def replaceOperator (entity_type : String) (_original : List Char) : List Char :=
  '<' :: (entity_type.data ++ ['>'])

/-- Descending-start processing order for the text-rewrite step. -/
def StartGE (a b : RecognizerResult) : Prop :=
  b.start ≤ a.start

instance : DecidableRel StartGE := fun a b => by
  unfold StartGE; infer_instance

instance : IsTotal RecognizerResult StartGE where
  total a b := by unfold StartGE; omega

instance : IsTrans RecognizerResult StartGE where
  trans a b c hab hbc := by unfold StartGE at *; omega

/-- Splice one span's replacement into the buffer at the span's offsets:
the characters in `[start, end)` are replaced by the operator's output for
the span's entity type and current substring. -/
def splice (op : String → List Char → List Char) (buf : List Char)
    (s : RecognizerResult) : List Char :=
  buf.take s.start.toNat ++
    op s.entity_type ((buf.take s.«end».toNat).drop s.start.toNat) ++
    buf.drop s.«end».toNat

/-- Modelled from the spec: `presidio_anonymizer.AnonymizerEngine.anonymize`,
the text-rewrite step that `PIIMasker.mask` (src/core/masker.py:44-82)
delegates to, is an external dependency not contained in this repository;
spec §4.2 specifies it: iterate the reconciled spans in descending `start`
order and splice each span's replacement into the buffer, so that earlier
replacements do not invalidate the offsets of not-yet-processed spans (all
offsets refer to the original coordinate space). -/
def anonymize (op : String → List Char → List Char) (text : List Char)
    (spans : List RecognizerResult) : List Char :=
  (spans.insertionSort StartGE).foldl (fun buf s => splice op buf s) text

/-- Translation of `PIIMasker.mask` under the `REPLACE` strategy: anonymize with the
`replace` operator table of `_get_default_operators`. -/
def maskReplace (text : String) (analyzer_results : List RecognizerResult) : String :=
  ⟨anonymize replaceOperator text.data analyzer_results⟩

/-- Specification-side description of masking output: the text decomposes
into the untouched gap before each span, the operator output for the span's
substring, and so on, with the tail after the last span unchanged.  `pos` is
the current position in the original text. -/
def interleave (op : String → List Char → List Char) (text : List Char) :
    Nat → List RecognizerResult → List Char
  | pos, [] => text.drop pos
  | pos, s :: rest =>
    (text.take s.start.toNat).drop pos ++
      op s.entity_type ((text.take s.«end».toNat).drop s.start.toNat) ++
      interleave op text s.«end».toNat rest

end PIIMasker

/-- Model of the `PIIResult` dataclass (src/core/shield.py:36-50). -/
structure PIIResult where
  original_text : String
  masked_text : String
  detected_entities : List RecognizerResult
  entity_count : List (String × Nat)
deriving DecidableEq, Repr

namespace PIIShield

/-- One step of `PIIShield._count_entities` (src/core/shield.py:499-508):
`count[entity_type] = count.get(entity_type, 0) + 1` on an insertion-ordered
dict, modelled as an association list. -/
def bump : List (String × Nat) → String → List (String × Nat)
  | [], t => [(t, 1)]
  | (k, n) :: rest, t => if k = t then (k, n + 1) :: rest else (k, n) :: bump rest t

/-- Translation of `PIIShield._count_entities` (src/core/shield.py:499-508). -/
def countEntities (entities : List RecognizerResult) : List (String × Nat) :=
  entities.foldl (fun count e => bump count e.entity_type) []

/-- The detection modes of `PIIShield.protect` / `detect_only`
(src/core/shield.py:186-204, 470-485): `azure_only` uses only Azure;
`dual` (`use_azure` with both detectors initialized) runs both and merges;
`presidio_only` uses only Presidio. -/
inductive DetectionMode
  | azure_only
  | dual
  | presidio_only
deriving DecidableEq, Repr

/-- Translation of `PIIShield._detect_with_azure` (src/core/shield.py:219-257).  The Azure
call's outcome (a span list, or an operational failure from either the
`is_error` branch or a raised exception — both error paths of the source are
collapsed into one `Except` error channel) is supplied as a parameter.  On
failure: raise (`RuntimeError`) if `raise_on_error`, else warn and return
the empty list. -/
def detectWithAzure (azure_outcome : Except String (List RecognizerResult))
    (raise_on_error : Bool) : Except String (List RecognizerResult) :=
  match azure_outcome with
  | .ok entities => .ok entities
  | .error msg =>
    if raise_on_error then .error ("Azure detection failed: " ++ msg)
    else .ok []

/-- Translation of `PIIShield.protect` (src/core/shield.py:152-217), with the two adapters'
outcomes supplied as parameters and the masking strategy already resolved to
its operator table `op`.  In `azure_only` mode Azure is called with
`raise_on_error = True`; in `dual` mode Azure is called with
`raise_on_error = False` and its failure yields `[]`, while an exception from
`_detect_with_presidio` propagates uncaught; the merged (or single-adapter)
entity list is masked and counted into a `PIIResult`. -/
def protect (mode : DetectionMode)
    (azure_outcome presidio_outcome : Except String (List RecognizerResult))
    (text : String) (op : String → List Char → List Char) :
    Except String PIIResult :=
  match mode with
  | .azure_only =>
    match detectWithAzure azure_outcome true with
    | .error e => .error e
    | .ok detected_entities =>
      .ok ⟨text, ⟨PIIMasker.anonymize op text.data detected_entities⟩,
        detected_entities, countEntities detected_entities⟩
  | .dual =>
    match detectWithAzure azure_outcome false with
    | .error e => .error e
    | .ok azure_entities =>
      match presidio_outcome with
      | .error e => .error e
      | .ok presidio_entities =>
        let detected_entities := mergeEntities azure_entities presidio_entities
        .ok ⟨text, ⟨PIIMasker.anonymize op text.data detected_entities⟩,
          detected_entities, countEntities detected_entities⟩
  | .presidio_only =>
    match presidio_outcome with
    | .error e => .error e
    | .ok detected_entities =>
      .ok ⟨text, ⟨PIIMasker.anonymize op text.data detected_entities⟩,
        detected_entities, countEntities detected_entities⟩

/-- Translation of `PIIShield.detect_only` (src/core/shield.py:445-485): the same branching
as `protect`, without masking. -/
def detectOnly (mode : DetectionMode)
    (azure_outcome presidio_outcome : Except String (List RecognizerResult)) :
    Except String (List RecognizerResult) :=
  match mode with
  | .azure_only => detectWithAzure azure_outcome true
  | .dual =>
    match detectWithAzure azure_outcome false with
    | .error e => .error e
    | .ok azure_entities =>
      match presidio_outcome with
      | .error e => .error e
      | .ok presidio_entities => .ok (mergeEntities azure_entities presidio_entities)
  | .presidio_only => presidio_outcome

end PIIShield

/-- Model of `DetectionMetrics` (src/eval/metrics.py:14-73): the three
counters. -/
structure DetectionMetrics where
  true_positives : Nat
  false_positives : Nat
  false_negatives : Nat
deriving DecidableEq, Repr

namespace DetectionMetrics

/-- Translation of `DetectionMetrics.precision` (src/eval/metrics.py:31-35):
`TP / (TP + FP) if total > 0 else 0.0` with `total = TP + FP`.  Python float
arithmetic is modelled exactly in `ℚ`; the function is total, so no division
error can occur. -/
def precision (m : DetectionMetrics) : ℚ :=
  if 0 < m.true_positives + m.false_positives then
    (m.true_positives : ℚ) / ((m.true_positives + m.false_positives : Nat) : ℚ)
  else 0

/-- Translation of `DetectionMetrics.recall` (src/eval/metrics.py:37-41):
`TP / (TP + FN) if total > 0 else 0.0` with `total = TP + FN`. -/
def «recall» (m : DetectionMetrics) : ℚ :=
  if 0 < m.true_positives + m.false_negatives then
    (m.true_positives : ℚ) / ((m.true_positives + m.false_negatives : Nat) : ℚ)
  else 0

/-- Translation of `DetectionMetrics.f1_score` (src/eval/metrics.py:43-47):
`2 * p * r / (p + r) if (p + r) > 0 else 0.0`. -/
def f1_score (m : DetectionMetrics) : ℚ :=
  if 0 < m.precision + m.«recall» then
    2 * m.precision * m.«recall» / (m.precision + m.«recall»)
  else 0

/-- Translation of `DetectionMetrics.accuracy` (src/eval/metrics.py:49-53):
`TP / (TP + FP + FN) if total > 0 else 0.0`. -/
def accuracy (m : DetectionMetrics) : ℚ :=
  if 0 < m.true_positives + m.false_positives + m.false_negatives then
    (m.true_positives : ℚ) /
      ((m.true_positives + m.false_positives + m.false_negatives : Nat) : ℚ)
  else 0

/-- Translation of `DetectionMetrics.__add__` (src/eval/metrics.py:67-73): componentwise
sum of the counters. -/
def add (m other : DetectionMetrics) : DetectionMetrics :=
  ⟨m.true_positives + other.true_positives,
    m.false_positives + other.false_positives,
    m.false_negatives + other.false_negatives⟩

end DetectionMetrics

namespace EntityMetrics

/-- Translation of `EntityMetrics.entity_metrics` (src/eval/metrics.py:76-83) is an
insertion-ordered dict from entity type to `DetectionMetrics`, modelled as an
association list.  `EntityMetrics.get_overall_metrics`
(src/eval/metrics.py:104-109) folds `DetectionMetrics.__add__` over its
values starting from zero counters. -/
def getOverallMetrics (entity_metrics : List (String × DetectionMetrics)) :
    DetectionMetrics :=
  entity_metrics.foldl (fun overall p => overall.add p.2) ⟨0, 0, 0⟩

end EntityMetrics

/-- Model of a ground-truth entry: `LabeledEntity.to_dict`
(src/eval/dataset.py:25-35) supplies dicts with keys `start`, `end`,
`entity_type` to `match_predictions_to_ground_truth`. -/
structure GroundTruthEntity where
  start : Int
  «end» : Int
  entity_type : String
deriving DecidableEq, Repr

namespace metrics

/-- Translation of `calculate_span_overlap` (src/eval/metrics.py:125-155): intersection and
union of the two offset ranges, IoU `intersection / union` when `union > 0`
else `0`, and the test `iou >= threshold`. -/
def calculateSpanOverlap (predicted ground_truth : Int × Int) (threshold : ℚ) :
    Bool :=
  let intersection_start := max predicted.1 ground_truth.1
  let intersection_end := min predicted.2 ground_truth.2
  let intersection := max 0 (intersection_end - intersection_start)
  let union := (predicted.2 - predicted.1) +
    (ground_truth.2 - ground_truth.1) - intersection
  let iou : ℚ := if 0 < union then (intersection : ℚ) / (union : ℚ) else 0
  decide (threshold ≤ iou)

/-- One iteration of the outer loop of `match_predictions_to_ground_truth`
(src/eval/metrics.py:177-191): scan the enumerated ground truth, skipping
already-matched indices (`continue`), and stop at the first entry with equal
entity type and sufficient span overlap (`break`), adding the prediction
index and the ground-truth index to the matched sets (modelled as lists). -/
def matchStep (ground_truth : List GroundTruthEntity) (overlap_threshold : ℚ)
    (acc : List Nat × List Nat) (ip : Nat × RecognizerResult) :
    List Nat × List Nat :=
  match ground_truth.enum.find? (fun jg =>
      !(acc.2.contains jg.1) && (ip.2.entity_type == jg.2.entity_type) &&
        calculateSpanOverlap (ip.2.start, ip.2.«end») (jg.2.start, jg.2.«end»)
          overlap_threshold) with
  | some jg => (acc.1 ++ [ip.1], acc.2 ++ [jg.1])
  | none => acc

/-- Translation of `match_predictions_to_ground_truth` (src/eval/metrics.py:158-196):
fold the matching step over the enumerated predictions, then return the
matched prediction indices together with the unmatched prediction indices
(`set(range(len(predictions))) - matched`) and the unmatched ground-truth
indices (`set(range(len(ground_truth))) - matched`). -/
def matchPredictionsToGroundTruth (predictions : List RecognizerResult)
    (ground_truth : List GroundTruthEntity) (overlap_threshold : ℚ) :
    List Nat × List Nat × List Nat :=
  let mp_mg := predictions.enum.foldl (matchStep ground_truth overlap_threshold)
    ([], [])
  (mp_mg.1,
   (List.range predictions.length).filter (fun i => !(mp_mg.1.contains i)),
   (List.range ground_truth.length).filter (fun j => !(mp_mg.2.contains j)))

/-- The IoU of two ranges as stated by the claim: intersection length
divided by union length (in `ℚ`). -/
def iouQ (p g : Int × Int) : ℚ :=
  (((max 0 (min p.2 g.2 - max p.1 g.1)) : Int) : ℚ) /
    ((((p.2 - p.1) + (g.2 - g.1) - max 0 (min p.2 g.2 - max p.1 g.1)) : Int) : ℚ)

/-- Modelled from the spec: the greedy first-fit matching described by the
specification — iterate predictions in original order; match each to the
first not-yet-matched ground-truth index of the same entity type whose IoU
meets the threshold; mark both sides.  Returns the matched (prediction
index, ground-truth index) pairs in order. -/
def greedyMatchSpec (ground_truth : List GroundTruthEntity) (threshold : ℚ) :
    List (Nat × RecognizerResult) → List Nat → List (Nat × Nat)
  | [], _ => []
  | ip :: rest, used =>
    match ground_truth.enum.find? (fun jg =>
        !(used.contains jg.1) && (ip.2.entity_type == jg.2.entity_type) &&
          decide (threshold ≤ iouQ (ip.2.start, ip.2.«end») (jg.2.start, jg.2.«end»))) with
    | some jg => (ip.1, jg.1) :: greedyMatchSpec ground_truth threshold rest (used ++ [jg.1])
    | none => greedyMatchSpec ground_truth threshold rest used

end metrics

namespace PIIShield

theorem entitiesOverlapSimple_true_iff (a b : RecognizerResult) :
    entitiesOverlapSimple a b = true ↔ b.start < a.«end» ∧ a.start < b.«end» := by
  simp [entitiesOverlapSimple]

theorem noOv_iff (a b : RecognizerResult) :
    NoOv a b ↔ a.«end» ≤ b.start ∨ b.«end» ≤ a.start := by
  rw [NoOv, ← Bool.not_eq_true, entitiesOverlapSimple_true_iff]
  omega

theorem noOv_symm : Symmetric NoOv := by
  intro a b hab
  rw [noOv_iff] at hab ⊢
  omega

theorem mem_insertEntity {c e : RecognizerResult} :
    ∀ {m : List RecognizerResult}, c ∈ insertEntity e m → c ∈ m ∨ c = e := by
  intro m
  induction m with
  | nil => simp [insertEntity]
  | cons x rest ih =>
    simp only [insertEntity]
    split
    · split
      · intro hc
        rcases ih hc with h | h
        · exact Or.inl (List.mem_cons_of_mem x h)
        · exact Or.inr h
      · intro hc; exact Or.inl hc
    · intro hc
      rcases List.mem_cons.mp hc with h | h
      · exact Or.inl (h ▸ List.mem_cons_self x rest)
      · rcases ih h with h' | h'
        · exact Or.inl (List.mem_cons_of_mem x h')
        · exact Or.inr h'

theorem pairwise_insertEntity {e : RecognizerResult} :
    ∀ {m : List RecognizerResult}, m.Pairwise NoOv → (insertEntity e m).Pairwise NoOv := by
  intro m
  induction m with
  | nil => simp [insertEntity, NoOv]
  | cons x rest ih =>
    intro hp
    rcases List.pairwise_cons.mp hp with ⟨hx, hrest⟩
    simp only [insertEntity]
    split
    · split
      · exact ih hrest
      · exact hp
    · rename_i hov
      refine List.pairwise_cons.mpr ⟨?_, ih hrest⟩
      intro c hc
      rcases mem_insertEntity hc with h | h
      · exact hx c h
      · subst h
        exact noOv_symm (by simpa [NoOv] using hov)

theorem insertEntity_multiset_le (e : RecognizerResult) :
    ∀ m : List RecognizerResult,
      (insertEntity e m : Multiset RecognizerResult) ≤ (e ::ₘ (m : Multiset RecognizerResult)) := by
  intro m
  induction m with
  | nil => simp [insertEntity]
  | cons x rest ih =>
    simp only [insertEntity]
    split
    · split
      · refine le_trans ih ?_
        rw [← Multiset.cons_coe]
        exact Multiset.cons_le_cons e (Multiset.le_cons_self _ x)
      · exact Multiset.le_cons_self _ e
    · rw [← Multiset.cons_coe, ← Multiset.cons_coe, Multiset.cons_swap]
      exact Multiset.cons_le_cons x ih

theorem foldl_insertEntity_pairwise :
    ∀ (l m : List RecognizerResult), m.Pairwise NoOv →
      (l.foldl (fun m e => insertEntity e m) m).Pairwise NoOv := by
  intro l
  induction l with
  | nil => intro m hm; simpa using hm
  | cons e rest ih =>
    intro m hm
    exact ih (insertEntity e m) (pairwise_insertEntity hm)

theorem foldl_insertEntity_multiset_le :
    ∀ (l m : List RecognizerResult),
      ((l.foldl (fun m e => insertEntity e m) m : List RecognizerResult) :
          Multiset RecognizerResult) ≤
        (m : Multiset RecognizerResult) + (l : Multiset RecognizerResult) := by
  intro l
  induction l with
  | nil => intro m; simp
  | cons e rest ih =>
    intro m
    calc ((rest.foldl (fun m e => insertEntity e m) (insertEntity e m) :
            List RecognizerResult) : Multiset RecognizerResult)
        ≤ (insertEntity e m : Multiset RecognizerResult) + (rest : Multiset RecognizerResult) :=
          ih (insertEntity e m)
      _ ≤ (e ::ₘ (m : Multiset RecognizerResult)) + (rest : Multiset RecognizerResult) := by
          exact add_le_add_right (insertEntity_multiset_le e m) _
      _ = (m : Multiset RecognizerResult) + ((e :: rest : List RecognizerResult) :
            Multiset RecognizerResult) := by
          rw [Multiset.cons_coe, Multiset.coe_add, Multiset.coe_add, Multiset.coe_eq_coe]
          exact List.perm_middle.symm

theorem mergeEntities_multiset_le (az pr : List RecognizerResult) :
    (mergeEntities az pr : Multiset RecognizerResult) ≤
      ((az ++ pr : List RecognizerResult) : Multiset RecognizerResult) := by
  unfold mergeEntities
  have h1 : (((az ++ pr).insertionSort MergeKeyLE :
      List RecognizerResult) : Multiset RecognizerResult) =
      ((az ++ pr : List RecognizerResult) : Multiset RecognizerResult) :=
    Multiset.coe_eq_coe.mpr (List.perm_insertionSort MergeKeyLE _)
  have h2 := foldl_insertEntity_multiset_le ((az ++ pr).insertionSort MergeKeyLE) []
  have h3 : ((((az ++ pr).insertionSort MergeKeyLE).foldl
        (fun m e => insertEntity e m) ([] : List RecognizerResult)).insertionSort StartLE :
          Multiset RecognizerResult) =
      ((((az ++ pr).insertionSort MergeKeyLE).foldl
        (fun m e => insertEntity e m) ([] : List RecognizerResult) :
          List RecognizerResult) : Multiset RecognizerResult) :=
    Multiset.coe_eq_coe.mpr (List.perm_insertionSort StartLE _)
  rw [h3]
  simpa [h1] using h2

theorem mem_mergeEntities {c : RecognizerResult} {az pr : List RecognizerResult}
    (hc : c ∈ mergeEntities az pr) : c ∈ az ++ pr := by
  have := Multiset.mem_of_le (mergeEntities_multiset_le az pr)
    (by simpa using hc)
  simpa using this

theorem mergeEntities_pairwise_noOv (az pr : List RecognizerResult) :
    (mergeEntities az pr).Pairwise NoOv := by
  unfold mergeEntities
  have hfold := foldl_insertEntity_pairwise ((az ++ pr).insertionSort MergeKeyLE) []
    (List.Pairwise.nil)
  have hperm := List.perm_insertionSort StartLE
    (((az ++ pr).insertionSort MergeKeyLE).foldl (fun m e => insertEntity e m) [])
  exact (hperm.pairwise_iff (fun hab => noOv_symm hab)).mpr hfold

theorem mergeEntities_pairwise_startLE (az pr : List RecognizerResult) :
    (mergeEntities az pr).Pairwise StartLE := by
  unfold mergeEntities
  exact List.sorted_insertionSort StartLE _

/-- Two sorted lists that are permutations of each other are equal, provided
the order relation is antisymmetric on the elements actually present. -/
theorem eq_of_perm_of_pairwise_of_antisymm {α : Type} (r : α → α → Prop) :
    ∀ l₁ l₂ : List α, l₁.Perm l₂ → l₁.Pairwise r → l₂.Pairwise r →
      (∀ a ∈ l₁, ∀ b ∈ l₁, r a b → r b a → a = b) → l₁ = l₂ := by
  intro l₁
  induction l₁ with
  | nil =>
    intro l₂ hp _ _ _
    exact (hp.symm.eq_nil).symm
  | cons a t₁ ih =>
    intro l₂ hp h₁ h₂ hanti
    cases l₂ with
    | nil => exact absurd hp.eq_nil (by simp)
    | cons b t₂ =>
      rcases List.pairwise_cons.mp h₁ with ⟨ha₁, ht₁⟩
      rcases List.pairwise_cons.mp h₂ with ⟨hb₂, ht₂⟩
      have hab : a = b := by
        have hbmem : b ∈ a :: t₁ := hp.symm.subset (List.mem_cons_self b t₂)
        have hamem : a ∈ b :: t₂ := hp.subset (List.mem_cons_self a t₁)
        rcases List.mem_cons.mp hbmem with h | hbt₁
        · exact h.symm
        · rcases List.mem_cons.mp hamem with h | hat₂
          · exact h
          · exact hanti a (List.mem_cons_self a t₁) b hbmem (ha₁ b hbt₁) (hb₂ a hat₂)
      subst hab
      have htail : t₁ = t₂ := by
        refine ih t₂ hp.cons_inv ht₁ ht₂ ?_
        intro x hx y hy
        exact hanti x (List.mem_cons_of_mem a hx) y (List.mem_cons_of_mem a hy)
      rw [htail]

/-- On a list of spans with pairwise distinct `(start, end)` pairs, the merge
sort key `MergeKeyLE` is antisymmetric. -/
theorem mergeKeyLE_antisymm_of_distinct (l : List RecognizerResult)
    (hdist : l.Pairwise fun a b => a.start ≠ b.start ∨ a.«end» ≠ b.«end») :
    ∀ a ∈ l, ∀ b ∈ l, MergeKeyLE a b → MergeKeyLE b a → a = b := by
  intro a ha b hb h1 h2
  by_contra hne
  have hsym : Symmetric fun a b : RecognizerResult =>
      a.start ≠ b.start ∨ a.«end» ≠ b.«end» := by
    intro x y h
    omega
  have := hdist.forall hsym ha hb hne
  unfold MergeKeyLE at h1 h2
  omega

end PIIShield

namespace PIIMasker

theorem interleave_nil (op : String → List Char → List Char) (text : List Char)
    (pos : Nat) : interleave op text pos [] = text.drop pos := rfl

theorem interleave_cons (op : String → List Char → List Char) (text : List Char)
    (pos : Nat) (s : RecognizerResult) (rest : List RecognizerResult) :
    interleave op text pos (s :: rest) =
      (text.take s.start.toNat).drop pos ++
        op s.entity_type ((text.take s.«end».toNat).drop s.start.toNat) ++
        interleave op text s.«end».toNat rest := rfl

theorem foldr_splice_eq_interleave (op : String → List Char → List Char)
    (text : List Char) :
    ∀ (spans : List RecognizerResult) (pos : Nat),
      spans.Pairwise (fun a b => a.«end» ≤ b.start) →
      (∀ s ∈ spans, 0 ≤ s.start ∧ s.start < s.«end» ∧ s.«end» ≤ (text.length : Int)) →
      (∀ s ∈ spans, (pos : Int) ≤ s.start) →
      spans.foldr (fun s acc => splice op acc s) text =
        text.take pos ++ interleave op text pos spans := by
  intro spans
  induction spans with
  | nil =>
    intro pos _ _ _
    simp [interleave]
  | cons s rest ih =>
    intro pos hchain hwf hpos
    rcases List.pairwise_cons.mp hchain with ⟨hs, hchain'⟩
    obtain ⟨h0, hlt, hle⟩ := hwf s (List.mem_cons_self s rest)
    have hpos0 := hpos s (List.mem_cons_self s rest)
    have IH := ih s.«end».toNat hchain'
      (fun x hx => hwf x (List.mem_cons_of_mem _ hx))
      (fun x hx => by
        have h1 := hs x hx
        omega)
    have hsN_le_eN : s.start.toNat ≤ s.«end».toNat := by omega
    have heN_le_len : s.«end».toNat ≤ text.length := by omega
    have hpos_le_sN : pos ≤ s.start.toNat := by omega
    have hlen_take : (text.take s.«end».toNat).length = s.«end».toNat := by
      rw [List.length_take]; omega
    show splice op (rest.foldr (fun s acc => splice op acc s) text) s =
      text.take pos ++ interleave op text pos (s :: rest)
    rw [IH, interleave_cons]
    unfold splice
    have h1 : (text.take s.«end».toNat ++
        interleave op text s.«end».toNat rest).take s.start.toNat =
        text.take s.start.toNat := by
      rw [List.take_append_of_le_length (by omega), List.take_take]
      congr 1
      omega
    have h2 : (text.take s.«end».toNat ++
        interleave op text s.«end».toNat rest).take s.«end».toNat =
        text.take s.«end».toNat := by
      rw [List.take_append_of_le_length (by omega), List.take_take]
      congr 1
      omega
    have h3 : (text.take s.«end».toNat ++
        interleave op text s.«end».toNat rest).drop s.«end».toNat =
        interleave op text s.«end».toNat rest := by
      rw [List.drop_append_eq_append_drop, List.drop_eq_nil_of_le (by omega)]
      simp [hlen_take]
    rw [h1, h2, h3]
    have h4 : text.take s.start.toNat =
        text.take pos ++ (text.take s.start.toNat).drop pos := by
      conv_lhs => rw [← List.take_append_drop pos (text.take s.start.toNat)]
      rw [List.take_take]
      congr 2
      omega
    conv_lhs => rw [h4]
    simp [List.append_assoc]

/-- Strict ascent of `start` along a reconciled chain gives antisymmetry of
the descending processing order on its members. -/
theorem startGE_antisymm_of_chain (spans : List RecognizerResult)
    (hchain : spans.Pairwise fun a b => a.«end» ≤ b.start)
    (hwf : ∀ s ∈ spans, s.start < s.«end») :
    ∀ a ∈ spans, ∀ b ∈ spans, StartGE a b → StartGE b a → a = b := by
  have hne : spans.Pairwise fun a b : RecognizerResult => a.start ≠ b.start := by
    refine hchain.imp_of_mem ?_
    intro a b ha hb hab
    have := hwf a ha
    omega
  intro a ha b hb h1 h2
  by_contra hcontra
  have hsym : Symmetric fun a b : RecognizerResult => a.start ≠ b.start := by
    intro x y h
    omega
  have := hne.forall hsym ha hb hcontra
  unfold StartGE at h1 h2
  omega

theorem anonymize_eq_interleave (op : String → List Char → List Char)
    (text : List Char) (spans : List RecognizerResult)
    (hchain : spans.Pairwise fun a b => a.«end» ≤ b.start)
    (hwf : ∀ s ∈ spans, 0 ≤ s.start ∧ s.start < s.«end» ∧ s.«end» ≤ (text.length : Int)) :
    anonymize op text spans = interleave op text 0 spans := by
  have hrev : spans.insertionSort StartGE = spans.reverse := by
    refine PIIShield.eq_of_perm_of_pairwise_of_antisymm StartGE _ _
      ((List.perm_insertionSort _ _).trans (spans.reverse_perm).symm)
      (List.sorted_insertionSort _ _) ?_ ?_
    · rw [List.pairwise_reverse]
      refine hchain.imp_of_mem ?_
      intro a b ha hb hab
      have := (hwf a ha).2.1
      unfold StartGE
      omega
    · intro a ha b hb
      exact startGE_antisymm_of_chain spans hchain (fun x hx => (hwf x hx).2.1) a
        ((List.mem_insertionSort _).mp ha) b ((List.mem_insertionSort _).mp hb)
  unfold anonymize
  rw [hrev, List.foldl_reverse]
  have := foldr_splice_eq_interleave op text spans 0 hchain hwf
    (fun s hs => by have := (hwf s hs).1; omega)
  simpa only [List.take_zero, List.nil_append] using this

end PIIMasker

namespace DetectionMetrics

theorem precision_eq (m : DetectionMetrics) :
    m.precision = (m.true_positives : ℚ) /
      ((m.true_positives : ℚ) + (m.false_positives : ℚ)) := by
  unfold precision
  split
  · push_cast
    rfl
  · rename_i h
    have h1 : m.true_positives = 0 := by omega
    have h2 : m.false_positives = 0 := by omega
    simp [h1, h2]

theorem recall_eq (m : DetectionMetrics) :
    m.«recall» = (m.true_positives : ℚ) /
      ((m.true_positives : ℚ) + (m.false_negatives : ℚ)) := by
  unfold «recall»
  split
  · push_cast
    rfl
  · rename_i h
    have h1 : m.true_positives = 0 := by omega
    have h2 : m.false_negatives = 0 := by omega
    simp [h1, h2]

theorem precision_nonneg (m : DetectionMetrics) : 0 ≤ m.precision := by
  rw [precision_eq]
  positivity

theorem recall_nonneg (m : DetectionMetrics) : 0 ≤ m.«recall» := by
  rw [recall_eq]
  positivity

theorem f1_score_eq (m : DetectionMetrics) :
    m.f1_score = 2 * m.precision * m.«recall» / (m.precision + m.«recall») := by
  unfold f1_score
  split
  · rfl
  · rename_i h
    have hp := m.precision_nonneg
    have hr := m.recall_nonneg
    have h0 : m.precision = 0 := by
      by_contra hne
      have : 0 < m.precision + m.«recall» := by
        have : 0 < m.precision := lt_of_le_of_ne hp (Ne.symm hne)
        linarith
      exact h this
    simp [h0]

end DetectionMetrics

namespace EntityMetrics

theorem foldl_add_eq (em : List (String × DetectionMetrics)) :
    ∀ init : DetectionMetrics,
      em.foldl (fun overall p => overall.add p.2) init =
        ⟨init.true_positives + (em.map fun p => p.2.true_positives).sum,
         init.false_positives + (em.map fun p => p.2.false_positives).sum,
         init.false_negatives + (em.map fun p => p.2.false_negatives).sum⟩ := by
  induction em with
  | nil => intro init; simp
  | cons p rest ih =>
    intro init
    rw [List.foldl_cons, ih]
    simp [DetectionMetrics.add]
    omega

theorem getOverallMetrics_eq (em : List (String × DetectionMetrics)) :
    getOverallMetrics em =
      ⟨(em.map fun p => p.2.true_positives).sum,
       (em.map fun p => p.2.false_positives).sum,
       (em.map fun p => p.2.false_negatives).sum⟩ := by
  unfold getOverallMetrics
  rw [foldl_add_eq]
  simp

end EntityMetrics

namespace metrics

theorem findPred_congr {α : Type} (p q : α → Bool) :
    ∀ l : List α, (∀ a ∈ l, p a = q a) → l.find? p = l.find? q := by
  intro l
  induction l with
  | nil => intro _; rfl
  | cons x rest ih =>
    intro h
    rw [List.find?_cons, List.find?_cons, h x (List.mem_cons_self x rest)]
    split
    · rfl
    · exact ih fun a ha => h a (List.mem_cons_of_mem x ha)

/-- On well-formed ranges (`start < end` on both sides) the source's
`calculate_span_overlap` decides exactly `threshold ≤ IoU`. -/
theorem calculateSpanOverlap_eq_iouQ (p g : Int × Int) (θ : ℚ)
    (hp : p.1 < p.2) (hg : g.1 < g.2) :
    calculateSpanOverlap p g θ = decide (θ ≤ iouQ p g) := by
  have hunion : 0 < (p.2 - p.1) + (g.2 - g.1) -
      max 0 (min p.2 g.2 - max p.1 g.1) := by
    omega
  simp only [calculateSpanOverlap, iouQ, if_pos hunion]

theorem matchStep_eq (gts : List GroundTruthEntity) (θ : ℚ)
    (hg : ∀ g ∈ gts, g.start < g.«end»)
    (ip : Nat × RecognizerResult) (hip : ip.2.start < ip.2.«end»)
    (acc : List Nat × List Nat) :
    matchStep gts θ acc ip =
      match gts.enum.find? (fun jg =>
          !(acc.2.contains jg.1) && (ip.2.entity_type == jg.2.entity_type) &&
            decide (θ ≤ iouQ (ip.2.start, ip.2.«end») (jg.2.start, jg.2.«end»))) with
      | some jg => (acc.1 ++ [ip.1], acc.2 ++ [jg.1])
      | none => acc := by
  unfold matchStep
  rw [findPred_congr _ _ gts.enum ?_]
  intro jg hjg
  rw [calculateSpanOverlap_eq_iouQ _ _ _ hip (hg jg.2 (List.snd_mem_of_mem_enum hjg))]

theorem foldl_matchStep_eq_greedy (gts : List GroundTruthEntity) (θ : ℚ)
    (hg : ∀ g ∈ gts, g.start < g.«end») :
    ∀ (l : List (Nat × RecognizerResult)),
      (∀ ip ∈ l, ip.2.start < ip.2.«end») →
      ∀ mp mg : List Nat,
        l.foldl (matchStep gts θ) (mp, mg) =
          (mp ++ (greedyMatchSpec gts θ l mg).map Prod.fst,
           mg ++ (greedyMatchSpec gts θ l mg).map Prod.snd) := by
  intro l
  induction l with
  | nil =>
    intro _ mp mg
    simp [greedyMatchSpec]
  | cons ip rest ih =>
    intro hwf mp mg
    rw [List.foldl_cons,
      matchStep_eq gts θ hg ip (hwf ip (List.mem_cons_self ip rest)) (mp, mg)]
    have hwf' : ∀ x ∈ rest, x.2.start < x.2.«end» :=
      fun x hx => hwf x (List.mem_cons_of_mem ip hx)
    cases hfind : gts.enum.find? (fun jg =>
        !(mg.contains jg.1) && (ip.2.entity_type == jg.2.entity_type) &&
          decide (θ ≤ iouQ (ip.2.start, ip.2.«end») (jg.2.start, jg.2.«end»))) with
    | none =>
      simp only [greedyMatchSpec, hfind]
      exact ih hwf' mp mg
    | some jg =>
      simp only [greedyMatchSpec, hfind]
      rw [ih hwf' (mp ++ [ip.1]) (mg ++ [jg.1])]
      simp

end metrics

/-- Claim C1. For every finite list of input spans, each with `start < end`, the
output of `PIIShield._merge_entities` applied to the concatenation of the two
adapters' span lists contains no two spans whose ranges intersect
(`start1 < end2` and `start2 < end1`), and the output is ordered strictly
ascending by `start`. -/
theorem merge_entities_nonoverlapping_and_sorted (az pr : List RecognizerResult)
    (h : ∀ e ∈ az ++ pr, e.start < e.«end») :
    ((PIIShield.mergeEntities az pr).Pairwise fun a b =>
        ¬(a.start < b.«end» ∧ b.start < a.«end»)) ∧
    ((PIIShield.mergeEntities az pr).Pairwise fun a b => a.start < b.start) := by
  have hno := PIIShield.mergeEntities_pairwise_noOv az pr
  have hle := PIIShield.mergeEntities_pairwise_startLE az pr
  constructor
  · refine hno.imp ?_
    intro a b hab
    rw [PIIShield.noOv_iff] at hab
    omega
  · have hand := hno.and hle
    refine hand.imp_of_mem ?_
    intro a b ha hb hab
    rcases hab with ⟨hnov, hs⟩
    rw [PIIShield.noOv_iff] at hnov
    have ha' := h a (PIIShield.mem_mergeEntities ha)
    have hb' := h b (PIIShield.mem_mergeEntities hb)
    unfold PIIShield.StartLE at hs
    omega

/-- Witness for C1 at a concrete input. -/
theorem merge_entities_nonoverlapping_and_sorted_witness :
    (∀ e ∈ ([⟨"PERSON", 0, 2, 1⟩] ++ [⟨"EMAIL_ADDRESS", 1, 4, 1⟩] :
        List RecognizerResult), e.start < e.«end») ∧
    ((PIIShield.mergeEntities [⟨"PERSON", 0, 2, 1⟩]
        [⟨"EMAIL_ADDRESS", 1, 4, 1⟩]).Pairwise fun a b =>
        ¬(a.start < b.«end» ∧ b.start < a.«end»)) ∧
    ((PIIShield.mergeEntities [⟨"PERSON", 0, 2, 1⟩]
        [⟨"EMAIL_ADDRESS", 1, 4, 1⟩]).Pairwise fun a b => a.start < b.start) :=
  ⟨by decide, merge_entities_nonoverlapping_and_sorted _ _ (by decide)⟩

/-- Claim C2, counterexample. Reconciliation is *not* order-independent: two
spans with identical geometry `(0, 2)` but different entity types give
different outputs depending on arrival order (the stable sort leaves them in
arrival order and the equal-width tie-break keeps the first accepted). -/
theorem merge_entities_order_dependent_counterexample :
    ([⟨"EMAIL_ADDRESS", 0, 2, 1⟩, ⟨"PERSON", 0, 2, 1⟩] :
        List RecognizerResult).Perm
      [⟨"PERSON", 0, 2, 1⟩, ⟨"EMAIL_ADDRESS", 0, 2, 1⟩] ∧
    PIIShield.mergeEntities [⟨"EMAIL_ADDRESS", 0, 2, 1⟩, ⟨"PERSON", 0, 2, 1⟩] [] ≠
      PIIShield.mergeEntities [⟨"PERSON", 0, 2, 1⟩, ⟨"EMAIL_ADDRESS", 0, 2, 1⟩] [] := by
  constructor
  · decide
  · decide

/-- Claim C2, amended. Reconciliation is order-independent on every finite span
multiset in which no two spans share both `start` and `end`: for every
permutation of the concatenated input, `_merge_entities` produces the same
output list. -/
theorem merge_entities_order_independent (az pr az' pr' : List RecognizerResult)
    (hperm : (az ++ pr).Perm (az' ++ pr'))
    (hdist : (az ++ pr).Pairwise fun a b => a.start ≠ b.start ∨ a.«end» ≠ b.«end») :
    PIIShield.mergeEntities az pr = PIIShield.mergeEntities az' pr' := by
  have hsort : (az ++ pr).insertionSort PIIShield.MergeKeyLE =
      (az' ++ pr').insertionSort PIIShield.MergeKeyLE := by
    refine PIIShield.eq_of_perm_of_pairwise_of_antisymm PIIShield.MergeKeyLE _ _
      (((List.perm_insertionSort _ _).trans hperm).trans
        (List.perm_insertionSort _ _).symm)
      (List.sorted_insertionSort _ _) (List.sorted_insertionSort _ _) ?_
    intro a ha b hb
    exact PIIShield.mergeKeyLE_antisymm_of_distinct _ hdist a
      ((List.mem_insertionSort _).mp ha) b ((List.mem_insertionSort _).mp hb)
  simp only [PIIShield.mergeEntities]
  rw [hsort]

/-- Witness for the amended C2 at a concrete input. -/
theorem merge_entities_order_independent_witness :
    ([⟨"PERSON", 0, 2, 1⟩, ⟨"EMAIL_ADDRESS", 5, 9, 1⟩] :
        List RecognizerResult).Perm
      ([⟨"EMAIL_ADDRESS", 5, 9, 1⟩, ⟨"PERSON", 0, 2, 1⟩] :
        List RecognizerResult) ∧
    (([⟨"PERSON", 0, 2, 1⟩, ⟨"EMAIL_ADDRESS", 5, 9, 1⟩] :
        List RecognizerResult).Pairwise fun a b =>
        a.start ≠ b.start ∨ a.«end» ≠ b.«end») ∧
    PIIShield.mergeEntities [⟨"PERSON", 0, 2, 1⟩] [⟨"EMAIL_ADDRESS", 5, 9, 1⟩] =
      PIIShield.mergeEntities [⟨"EMAIL_ADDRESS", 5, 9, 1⟩] [⟨"PERSON", 0, 2, 1⟩] :=
  ⟨by decide, by decide,
    merge_entities_order_independent _ _ _ _ (by decide) (by decide)⟩

/-- Claim C3. Widest-wins: for spans `A = (0,2)` and `B = (0,4)` of the same
entity type, reconciliation of the input `[A, B]` yields exactly `[B]`
(checked both as the concatenation `[A] ++ [B]` of the two adapters' lists
and with the whole input on one adapter). -/
theorem merge_entities_widest_wins :
    PIIShield.mergeEntities [⟨"PERSON", 0, 2, 1⟩] [⟨"PERSON", 0, 4, 1⟩] =
        [⟨"PERSON", 0, 4, 1⟩] ∧
    PIIShield.mergeEntities [⟨"PERSON", 0, 2, 1⟩, ⟨"PERSON", 0, 4, 1⟩] [] =
        [⟨"PERSON", 0, 4, 1⟩] := by
  constructor
  · decide
  · decide

/-- Claim C10. Every span in the reconciliation output is one of the input
spans, unchanged: the output of `_merge_entities` is a sub-multiset of the
concatenated input (so no span is synthesized, altered, or fused). -/
theorem merge_entities_submultiset_of_input (az pr : List RecognizerResult) :
    (PIIShield.mergeEntities az pr : Multiset RecognizerResult) ≤
        ((az ++ pr : List RecognizerResult) : Multiset RecognizerResult) ∧
    ∀ e ∈ PIIShield.mergeEntities az pr, e ∈ az ++ pr :=
  ⟨PIIShield.mergeEntities_multiset_le az pr,
    fun _ he => PIIShield.mem_mergeEntities he⟩

/-- Claim C5. Under the `Replace` strategy, each reconciled span's substring is
replaced by `"<" + entity_type + ">"` at the span's original-text offsets:
for every text and every reconciled (sorted, non-overlapping, in-bounds) span
list, the masked output is the interleaving of the untouched gaps with the
per-span replacement `"<" + entity_type + ">"`; in particular, masking
`"Email john@x.com end"` with the single span `(6, 16, "EMAIL_ADDRESS")`
yields `"Email <EMAIL_ADDRESS> end"`. -/
theorem mask_replace_at_original_offsets :
    (∀ (text : String) (spans : List RecognizerResult),
        spans.Pairwise (fun a b => a.«end» ≤ b.start) →
        (∀ s ∈ spans,
          0 ≤ s.start ∧ s.start < s.«end» ∧ s.«end» ≤ (text.length : Int)) →
        PIIMasker.maskReplace text spans =
          ⟨PIIMasker.interleave PIIMasker.replaceOperator text.data 0 spans⟩) ∧
    PIIMasker.maskReplace "Email john@x.com end" [⟨"EMAIL_ADDRESS", 6, 16, 1⟩] =
      "Email <EMAIL_ADDRESS> end" := by
  constructor
  · intro text spans hchain hwf
    unfold PIIMasker.maskReplace
    rw [PIIMasker.anonymize_eq_interleave PIIMasker.replaceOperator text.data spans
      hchain (fun s hs => hwf s hs)]
  · decide

/-- Witness for C5 at the concrete input of the claim. -/
theorem mask_replace_at_original_offsets_witness :
    (([⟨"EMAIL_ADDRESS", 6, 16, 1⟩] : List RecognizerResult).Pairwise
        fun a b => a.«end» ≤ b.start) ∧
    (∀ s ∈ ([⟨"EMAIL_ADDRESS", 6, 16, 1⟩] : List RecognizerResult),
        0 ≤ s.start ∧ s.start < s.«end» ∧
          s.«end» ≤ (("Email john@x.com end" : String).length : Int)) ∧
    PIIMasker.maskReplace "Email john@x.com end" [⟨"EMAIL_ADDRESS", 6, 16, 1⟩] =
      ⟨PIIMasker.interleave PIIMasker.replaceOperator
        ("Email john@x.com end" : String).data 0 [⟨"EMAIL_ADDRESS", 6, 16, 1⟩]⟩ :=
  ⟨by decide, by decide,
    mask_replace_at_original_offsets.1 _ _ (by decide) (by decide)⟩

/-- Claim C4, counterexample. In dual mode it is *not* true that the call
survives whenever exactly one adapter fails: only an Azure failure is
soft-caught (`raise_on_error=False`); a failure of the Presidio adapter is
uncaught in `protect`/`detect_only` and propagates, even though the Azure
adapter succeeded. -/
theorem protect_dual_presidio_failure_raises :
    PIIShield.protect .dual (.ok [⟨"PERSON", 0, 4, 1⟩]) (.error "presidio failure")
        "John" PIIMasker.replaceOperator = .error "presidio failure" ∧
    PIIShield.detectOnly .dual (.ok [⟨"PERSON", 0, 4, 1⟩]) (.error "presidio failure") =
      .error "presidio failure" := by
  constructor
  · rfl
  · rfl

/-- Claim C4, amended. In dual mode, if the *cloud* adapter fails,
`protect`/`detect_only` does not raise: it continues with the local
adapter's spans and returns a result built from them; in `azure_only` mode a
failure of the single configured adapter raises an error.  (A failure of the
local adapter in dual mode propagates — see the counterexample.) -/
theorem protect_dual_azure_failure_survives (msg text : String)
    (ps : List RecognizerResult)
    (op : String → List Char → List Char)
    (az_out : Except String (List RecognizerResult)) :
    PIIShield.protect .dual (.error msg) (.ok ps) text op =
      .ok ⟨text,
        ⟨PIIMasker.anonymize op text.data (PIIShield.mergeEntities [] ps)⟩,
        PIIShield.mergeEntities [] ps,
        PIIShield.countEntities (PIIShield.mergeEntities [] ps)⟩ ∧
    PIIShield.detectOnly .dual (.error msg) (.ok ps) =
      .ok (PIIShield.mergeEntities [] ps) ∧
    PIIShield.protect .azure_only (.error msg) az_out text op =
      .error ("Azure detection failed: " ++ msg) ∧
    PIIShield.detectOnly .azure_only (.error msg) az_out =
      .error ("Azure detection failed: " ++ msg) := by
  exact ⟨rfl, rfl, rfl, rfl⟩

/-- Claim C8. For every value of the TP/FP/FN counters, `precision` equals
`TP/(TP+FP)`, `recall` equals `TP/(TP+FN)`, and `f1` equals `2PR/(P+R)`
(unconditionally, since in the zero-denominator branch both sides are `0`),
and each of the three evaluates to exactly `0` whenever its denominator is
`0`.  The Lean model is a total function over all counter values, mirroring
that the source never raises a division error. -/
theorem detection_metrics_formulas (m : DetectionMetrics) :
    m.precision = (m.true_positives : ℚ) /
        ((m.true_positives : ℚ) + (m.false_positives : ℚ)) ∧
    m.«recall» = (m.true_positives : ℚ) /
        ((m.true_positives : ℚ) + (m.false_negatives : ℚ)) ∧
    m.f1_score = 2 * m.precision * m.«recall» / (m.precision + m.«recall») ∧
    (m.true_positives + m.false_positives = 0 → m.precision = 0) ∧
    (m.true_positives + m.false_negatives = 0 → m.«recall» = 0) ∧
    (m.precision + m.«recall» = 0 → m.f1_score = 0) := by
  refine ⟨m.precision_eq, m.recall_eq, m.f1_score_eq, ?_, ?_, ?_⟩
  · intro h
    rw [m.precision_eq]
    have h1 : m.true_positives = 0 := by omega
    have h2 : m.false_positives = 0 := by omega
    simp [h1, h2]
  · intro h
    rw [m.recall_eq]
    have h1 : m.true_positives = 0 := by omega
    have h2 : m.false_negatives = 0 := by omega
    simp [h1, h2]
  · intro h
    rw [m.f1_score_eq, h]
    simp

/-- Claim C9. The overall evaluation row is micro-averaged: for every
collection of per-entity-type counters, `get_overall_metrics` first sums the
TP/FP/FN counts across all entity types, and its precision/recall/f1 are the
ratios of those sums (not averages of the per-type ratios). -/
theorem overall_metrics_micro_averaged (em : List (String × DetectionMetrics)) :
    EntityMetrics.getOverallMetrics em =
      ⟨(em.map fun p => p.2.true_positives).sum,
       (em.map fun p => p.2.false_positives).sum,
       (em.map fun p => p.2.false_negatives).sum⟩ ∧
    (EntityMetrics.getOverallMetrics em).precision =
      (((em.map fun p => p.2.true_positives).sum : Nat) : ℚ) /
        ((((em.map fun p => p.2.true_positives).sum : Nat) : ℚ) +
          (((em.map fun p => p.2.false_positives).sum : Nat) : ℚ)) ∧
    (EntityMetrics.getOverallMetrics em).«recall» =
      (((em.map fun p => p.2.true_positives).sum : Nat) : ℚ) /
        ((((em.map fun p => p.2.true_positives).sum : Nat) : ℚ) +
          (((em.map fun p => p.2.false_negatives).sum : Nat) : ℚ)) ∧
    (EntityMetrics.getOverallMetrics em).f1_score =
      2 * (EntityMetrics.getOverallMetrics em).precision *
          (EntityMetrics.getOverallMetrics em).«recall» /
        ((EntityMetrics.getOverallMetrics em).precision +
          (EntityMetrics.getOverallMetrics em).«recall») := by
  refine ⟨EntityMetrics.getOverallMetrics_eq em, ?_, ?_,
    (EntityMetrics.getOverallMetrics em).f1_score_eq⟩
  · rw [EntityMetrics.getOverallMetrics_eq, DetectionMetrics.precision_eq]
  · rw [EntityMetrics.getOverallMetrics_eq, DetectionMetrics.recall_eq]

/-- Claim C7. Evaluation matching is greedy first-fit: iterating predictions in
their original order, each prediction is matched to the first
not-yet-matched ground-truth index with the same entity type whose IoU
(intersection length over union length of the two ranges) meets the
threshold, marking both sides; the returned unmatched prediction indices
(counted as false positives by the evaluator, src/eval/evaluator.py:131-135)
are exactly the complement of the matched predictions, and the returned
unmatched ground-truth indices (counted as false negatives,
src/eval/evaluator.py:137-142) are exactly the complement of the matched
ground-truth indices. -/
theorem match_predictions_greedy_first_fit (predictions : List RecognizerResult)
    (ground_truth : List GroundTruthEntity) (θ : ℚ)
    (hp : ∀ p ∈ predictions, p.start < p.«end»)
    (hg : ∀ g ∈ ground_truth, g.start < g.«end») :
    metrics.matchPredictionsToGroundTruth predictions ground_truth θ =
      ((metrics.greedyMatchSpec ground_truth θ predictions.enum []).map Prod.fst,
       (List.range predictions.length).filter (fun i =>
         !(((metrics.greedyMatchSpec ground_truth θ
            predictions.enum []).map Prod.fst).contains i)),
       (List.range ground_truth.length).filter (fun j =>
         !(((metrics.greedyMatchSpec ground_truth θ
            predictions.enum []).map Prod.snd).contains j))) := by
  unfold metrics.matchPredictionsToGroundTruth
  rw [metrics.foldl_matchStep_eq_greedy ground_truth θ hg predictions.enum
    (fun ip hip => hp ip.2 (List.snd_mem_of_mem_enum hip)) [] []]
  simp

/-- Witness for C7 at a concrete input. -/
theorem match_predictions_greedy_first_fit_witness :
    (∀ p ∈ ([⟨"A", 0, 5, 1⟩, ⟨"B", 10, 12, 1⟩] : List RecognizerResult),
        p.start < p.«end») ∧
    (∀ g ∈ ([⟨0, 5, "A"⟩, ⟨20, 25, "B"⟩] : List GroundTruthEntity),
        g.start < g.«end») ∧
    metrics.matchPredictionsToGroundTruth
        [⟨"A", 0, 5, 1⟩, ⟨"B", 10, 12, 1⟩] [⟨0, 5, "A"⟩, ⟨20, 25, "B"⟩] (1 / 2) =
      ((metrics.greedyMatchSpec [⟨0, 5, "A"⟩, ⟨20, 25, "B"⟩] (1 / 2)
          ([⟨"A", 0, 5, 1⟩, ⟨"B", 10, 12, 1⟩] :
            List RecognizerResult).enum []).map Prod.fst,
       (List.range 2).filter (fun i =>
         !(((metrics.greedyMatchSpec [⟨0, 5, "A"⟩, ⟨20, 25, "B"⟩] (1 / 2)
            ([⟨"A", 0, 5, 1⟩, ⟨"B", 10, 12, 1⟩] :
              List RecognizerResult).enum []).map Prod.fst).contains i)),
       (List.range 2).filter (fun j =>
         !(((metrics.greedyMatchSpec [⟨0, 5, "A"⟩, ⟨20, 25, "B"⟩] (1 / 2)
            ([⟨"A", 0, 5, 1⟩, ⟨"B", 10, 12, 1⟩] :
              List RecognizerResult).enum []).map Prod.snd).contains j))) :=
  ⟨by decide, by decide,
    match_predictions_greedy_first_fit _ _ _ (by decide) (by decide)⟩
